import Mathlib

/-!
Shallow embedding of `chat.py` (Wandee AI Pro), a single-user chat interface
that persists conversations as JSON files and derives a unique, filesystem-safe
chat identifier from model-generated text.

Strings that undergo character-level processing (topics, filenames) are
modelled as `List Char`; the character classes of Python's `re` module
(`\w`, `\s`) are modelled on their ASCII fragment.
-/

namespace Wandee

/-- Python's `\s` class (ASCII fragment): space, tab, newline, carriage
return, vertical tab, form feed. -/
def isSpaceChar (c : Char) : Bool :=
  c == ' ' || c == '\t' || c == '\n' || c == '\r' || c == '\x0b' || c == '\x0c'

/-- Python's `\w` class (ASCII fragment): letters, digits, underscore. -/
def isWordChar (c : Char) : Bool :=
  c.isAlphanum || c == '_'

/-- Characters kept by `re.sub(r'[^\w\s-]', '', topic)`: word characters,
whitespace, and the hyphen. -/
def allowedChar (c : Char) : Bool :=
  isWordChar c || isSpaceChar c || c == '-'

/-- Python `str.strip()`: remove leading and trailing whitespace. -/
def pyStrip (l : List Char) : List Char :=
  ((l.dropWhile isSpaceChar).reverse.dropWhile isSpaceChar).reverse

/-- Helper for `collapseWs`: the `Bool` records whether the previous
character was part of a whitespace run already replaced by `'_'`. -/
def collapseWsAux : Bool → List Char → List Char
  | _, [] => []
  | prevWs, c :: rest =>
    if isSpaceChar c then
      if prevWs then collapseWsAux true rest
      else '_' :: collapseWsAux true rest
    else c :: collapseWsAux false rest

/-- Python `re.sub(r'\s+', '_', s)`: replace each run of whitespace by a
single underscore. -/
def collapseWs (l : List Char) : List Char :=
  collapseWsAux false l

/-- Embedding of `sanitize_filename` from `chat.py`:
remove characters outside `[^\w\s-]`, `strip()`, collapse whitespace runs
to single underscores, then truncate to 50 characters, with the fallback
`"new_chat"` for an empty result. -/
def sanitize_filename (topic : List Char) : List Char :=
  let s := collapseWs (pyStrip (topic.filter allowedChar))
  if s = [] then "new_chat".data else s.take 50

/-- The sanitizer exactly as the claim words it: remove disallowed
characters, replace each run of whitespace with a single underscore
(with no stripping step), truncate to 50, fall back to `"new_chat"`
when empty. -/
def claimSanitize (topic : List Char) : List Char :=
  let s := collapseWs (topic.filter allowedChar)
  if s = [] then "new_chat".data else s.take 50

/-- Helper for `pySplit`: `acc` is the current word, reversed. -/
def pySplitAux : List Char → List Char → List (List Char)
  | acc, [] => if acc = [] then [] else [acc.reverse]
  | acc, c :: rest =>
    if isSpaceChar c then
      if acc = [] then pySplitAux [] rest
      else acc.reverse :: pySplitAux [] rest
    else pySplitAux (c :: acc) rest

/-- Python `str.split()`: the maximal whitespace-free words of the string,
in order (leading/trailing/repeated whitespace contributes nothing). -/
def pySplit (l : List Char) : List (List Char) :=
  pySplitAux [] l

/-- Join a list of words with single underscores between them. -/
def joinUnd : List (List Char) → List Char
  | [] => []
  | [w] => w
  | w :: u :: rest => w ++ '_' :: joinUnd (u :: rest)

/-- The sanitizer as the amended claim words it: remove disallowed
characters, strip leading and trailing whitespace, replace each remaining
run of whitespace with a single underscore (equivalently: join the
whitespace-separated words with underscores), truncate to 50, fall back to
`"new_chat"` when empty. -/
def specSanitize (topic : List Char) : List Char :=
  let s := joinUnd (pySplit (topic.filter allowedChar))
  if s = [] then "new_chat".data else s.take 50

/-- Removal of trailing whitespace, the second half of `str.strip()`. -/
def stripRight (l : List Char) : List Char :=
  (l.reverse.dropWhile isSpaceChar).reverse

/-- Decimal digit (0-9) to its character. -/
def digitChar (d : Nat) : Char :=
  Char.ofNat (48 + d)

/-- Fuel-driven decimal rendering; with `n ≤ fuel` it renders all of `n`.
An `n` of zero contributes no characters. -/
def natToCharsAux : Nat → Nat → List Char
  | 0, _ => []
  | fuel + 1, n =>
    if n = 0 then []
    else natToCharsAux fuel (n / 10) ++ [digitChar (n % 10)]

/-- Python `str(i)` for a natural number: its decimal rendering. -/
def natToChars (n : Nat) : List Char :=
  if n = 0 then ['0'] else natToCharsAux (n + 1) n

/-- Decimal parse, a left inverse of `natToChars`. -/
def charsToNat (l : List Char) : Nat :=
  l.foldl (fun acc c => acc * 10 + (c.toNat - 48)) 0

/-- The `.json` filename extension. -/
def jsonExt : List Char :=
  ".json".data

/-- The candidate filenames tried by the uniqueness loop in `main`:
`{topic}.json` first, then `{topic}_{i}.json` for `i = 1, 2, ...`. -/
def candidate (s : List Char) (i : Nat) : List Char :=
  if i = 0 then s ++ jsonExt
  else s ++ '_' :: (natToChars i ++ jsonExt)

/-- The `while os.path.exists` loop of `main`, returning the suffix index
it stops at; `fuel` bounds the number of iterations and `i` is the next
index to try. -/
def uniqueIdxAux (existing : List (List Char)) (s : List Char) : Nat → Nat → Nat
  | 0, i => i
  | fuel + 1, i =>
    if candidate s i ∈ existing then uniqueIdxAux existing s fuel (i + 1) else i

/-- The suffix index at which the uniqueness loop of `main` stops, given
the list of filenames already in the sessions directory. -/
def uniqueIdx (existing : List (List Char)) (s : List Char) : Nat :=
  uniqueIdxAux existing s (existing.length + 1) 0

/-- The chat id chosen by `main` for a new chat with sanitized topic `s`. -/
def new_chat_id (existing : List (List Char)) (s : List Char) : List Char :=
  candidate s (uniqueIdx existing s)

/-- One chat message: a role, text content, and an optional image list
(present only on user messages that carried an attachment). -/
structure Message where
  role : String
  content : String
  images : Option (List String)
deriving DecidableEq, Repr

/-- The JSON values a session file can hold. -/
inductive Json where
  | str : String → Json
  | arr : List Json → Json
  | obj : List (String × Json) → Json

/-- JSON encoding of one message, mirroring the Python dict with its keys
in insertion order: `role`, `content`, and `images` only when present. -/
def msgToJson (m : Message) : Json :=
  Json.obj ([("role", Json.str m.role), ("content", Json.str m.content)] ++
    (match m.images with
     | some imgs => [("images", Json.arr (imgs.map Json.str))]
     | none => []))

/-- JSON encoding of a chat history, as written by `json.dump`. -/
def msgsToJson (msgs : List Message) : Json :=
  Json.arr (msgs.map msgToJson)

/-- First value stored under key `k` in a JSON object's field list. -/
def lookupField (k : String) (fields : List (String × Json)) : Option Json :=
  (fields.find? (fun p => p.1 == k)).map (fun p => p.2)

/-- Decode a JSON array of strings. -/
def strsOfJson : List Json → Option (List String)
  | [] => some []
  | Json.str s :: rest => (strsOfJson rest).map (fun l => s :: l)
  | _ => none

/-- Decode one message object. -/
def jsonToMsg : Json → Option Message
  | Json.obj fields =>
    match lookupField "role" fields, lookupField "content" fields with
    | some (Json.str r), some (Json.str c) =>
      match lookupField "images" fields with
      | none => some { role := r, content := c, images := none }
      | some (Json.arr js) =>
        (strsOfJson js).map
          (fun imgs => { role := r, content := c, images := some imgs })
      | some _ => none
    | _, _ => none
  | _ => none

/-- Decode a list of message objects, failing if any element fails. -/
def msgsOfJsonList : List Json → Option (List Message)
  | [] => some []
  | j :: rest =>
    match jsonToMsg j, msgsOfJsonList rest with
    | some m, some ms => some (m :: ms)
    | _, _ => none

/-- Decode a chat history from the JSON value of a session file. -/
def jsonToMsgs : Json → Option (List Message)
  | Json.arr js => msgsOfJsonList js
  | _ => none

/-- The chat-sessions directory, as a map from filename to the JSON value
stored in that file (`none` when no such file exists). -/
abbrev FS := List Char → Option Json

/-- Embedding of `save_chat_history`: write the JSON encoding of the
history to the file named by the chat id. -/
def save_chat_history (chat_id : List Char) (history : List Message) (fs : FS) : FS :=
  fun name => if name = chat_id then some (msgsToJson history) else fs name

/-- Embedding of `load_chat_history`: the stored JSON value when the file
exists, the empty list otherwise. -/
def load_chat_history (chat_id : List Char) (fs : FS) : Json :=
  match fs chat_id with
  | some j => j
  | none => Json.arr []

/-- Embedding of `delete_chat_history`. -/
def delete_chat_history (chat_id : List Char) (fs : FS) : FS :=
  fun name => if name = chat_id then none else fs name

/-- Does a filename end in `.json`? -/
def endsWithJson (f : List Char) : Bool :=
  jsonExt.isSuffixOf f

/-- Embedding of `get_chat_sessions`: the `.json` files of the sessions
directory ordered by modification time, most recent first. `listing` is
`os.listdir` of the directory and `mtime` is `os.path.getmtime`. -/
def get_chat_sessions (listing : List (List Char)) (mtime : List Char → Nat) :
    List (List Char) :=
  (listing.filter endsWithJson).mergeSort (fun a b => decide (mtime b ≤ mtime a))

/-- The instruction text appended by `generate_chat_topic`. -/
def topicPromptText : String :=
  "Based on our conversation so far, what is a short, descriptive topic for this chat? The topic should be less than 10 words. Reply with only the topic itself, and nothing else."

/-- The user-role instruction message appended by `generate_chat_topic`. -/
def topicMessage : Message :=
  { role := "user", content := topicPromptText, images := none }

/-- Embedding of `generate_chat_topic`: the model is an oracle `chat`, an
exceptional `ollama.chat` call being modelled by `Except.error`. The call
receives a copy of the history with the instruction appended; on failure
the fallback topic is `"Chat"`. -/
def generate_chat_topic (chat : List Message → Except String String)
    (messages : List Message) : String :=
  match chat (messages ++ [topicMessage]) with
  | Except.ok content => content
  | Except.error _ => "Chat"

/-- The per-session state kept in `st.session_state`. -/
structure AppState where
  messages : List Message
  active_chat_id : Option (List Char)
  staged_image : Option String
  uploader_key : Nat
deriving Repr

/-- Session state after `setup_app` on a fresh session. -/
def initialState : AppState :=
  { messages := [], active_chat_id := none, staged_image := none, uploader_key := 0 }

/-- The user message built from the prompt, with the staged image (its
base64 payload) attached when one is present. -/
def mkUserMessage (prompt : String) (staged : Option String) : Message :=
  match staged with
  | some b64 => { role := "user", content := prompt, images := some [b64] }
  | none => { role := "user", content := prompt, images := none }

/-- The assistant reply message. -/
def assistantMessage (reply : String) : Message :=
  { role := "assistant", content := reply, images := none }

/-- Embedding of the chat-input branch of `main` (lines 180-237): append
the user message (attaching the staged image, if any), append the
assistant reply, on the first exchange of a new chat generate a topic and
choose a unique chat id, save the history, and clear the staged image if
one was sent. `existing` is the list of filenames in the sessions
directory, `chat` the model oracle used for topic generation, and `reply`
the assistant's reply. -/
def processPrompt (existing : List (List Char))
    (chat : List Message → Except String String) (reply : String)
    (prompt : String) (st : AppState) (fs : FS) : AppState × FS :=
  let userMsg := mkUserMessage prompt st.staged_image
  let imageWasSent := st.staged_image.isSome
  let msgs := st.messages ++ [userMsg] ++ [assistantMessage reply]
  let cid := match st.active_chat_id with
    | some c => c
    | none =>
      new_chat_id existing (sanitize_filename (generate_chat_topic chat msgs).data)
  ({ messages := msgs,
     active_chat_id := some cid,
     staged_image := if imageWasSent then none else st.staged_image,
     uploader_key := if imageWasSent then st.uploader_key + 1 else st.uploader_key },
   save_chat_history cid msgs fs)

/-- Embedding of the New Chat button handler. -/
def newChatAction (st : AppState) : AppState :=
  { messages := [], active_chat_id := none, staged_image := none,
    uploader_key :=
      if st.staged_image.isSome then st.uploader_key + 1 else st.uploader_key }

example : sanitize_filename " ".data = "new_chat".data := by decide
example : claimSanitize " ".data = "_".data := by decide
example : sanitize_filename " a  b ".data = "a_b".data := by decide
example : specSanitize " a  b ".data = "a_b".data := by decide
example : sanitize_filename "He*llo: wo/rld!".data = "Hello_world".data := by decide
example : natToChars 120 = "120".data := by decide
example : candidate "ab".data 2 = "ab_2.json".data := by decide
example : uniqueIdx ["a.json".data, "a_1.json".data] "a".data = 2 := by decide

lemma pyStrip_eq_stripRight (l : List Char) :
    pyStrip l = stripRight (l.dropWhile isSpaceChar) := rfl

lemma dropWhile_head_false {p : Char → Bool} :
    ∀ {l : List Char} {c : Char} {rest : List Char},
      l.dropWhile p = c :: rest → p c = false
  | [], _, _, h => by simp at h
  | a :: t, c, rest, h => by
    by_cases hpa : p a
    · rw [List.dropWhile_cons_of_pos hpa] at h
      exact dropWhile_head_false h
    · rw [List.dropWhile_cons_of_neg hpa] at h
      cases h
      simp only [Bool.not_eq_true] at hpa
      exact hpa

lemma stripRight_eq_nil_iff {l : List Char} :
    stripRight l = [] ↔ ∀ c ∈ l, isSpaceChar c := by
  unfold stripRight
  rw [List.reverse_eq_nil_iff, List.dropWhile_eq_nil_iff]
  constructor
  · intro h c hc
    exact h c (List.mem_reverse.mpr hc)
  · intro h c hc
    exact h c (List.mem_reverse.mp hc)

lemma stripRight_eq_self {l : List Char}
    (h : ∀ c ∈ l, isSpaceChar c = false) : stripRight l = l := by
  unfold stripRight
  cases hr : l.reverse with
  | nil =>
    simp_all
  | cons a t =>
    have ha : isSpaceChar a = false := by
      apply h
      rw [← List.mem_reverse, hr]
      exact List.mem_cons_self a t
    rw [List.dropWhile_cons_of_neg (by simp [ha]), ← hr, List.reverse_reverse]

lemma stripRight_append (x y : List Char) :
    stripRight (x ++ y) =
      if stripRight y = [] then stripRight x else x ++ stripRight y := by
  unfold stripRight
  rw [List.reverse_append, List.dropWhile_append]
  by_cases hy : y.reverse.dropWhile isSpaceChar = []
  · simp [hy]
  · have h1 : (y.reverse.dropWhile isSpaceChar).isEmpty = false := by
      simpa [List.isEmpty_iff] using hy
    have h2 : ¬ ((y.reverse.dropWhile isSpaceChar).reverse = []) := by
      simpa [List.reverse_eq_nil_iff] using hy
    simp [h1, h2]

lemma stripRight_cons_of_neg {c : Char} {l : List Char}
    (hc : isSpaceChar c = false) : stripRight (c :: l) = c :: stripRight l := by
  have h := stripRight_append [c] l
  have hc1 : stripRight [c] = [c] := stripRight_eq_self (by simpa using hc)
  by_cases h0 : stripRight l = []
  · rw [show c :: l = [c] ++ l from rfl, h, if_pos h0, hc1, h0]
  · rw [show c :: l = [c] ++ l from rfl, h, if_neg h0]
    rfl

lemma collapseWsAux_id {w : List Char}
    (hw : ∀ c ∈ w, isSpaceChar c = false) : collapseWsAux false w = w := by
  induction w with
  | nil => rfl
  | cons c t ih =>
    have hc : isSpaceChar c = false := hw c (List.mem_cons_self c t)
    simp only [collapseWsAux, hc, Bool.false_eq_true, if_false]
    rw [ih (fun d hd => hw d (List.mem_cons_of_mem c hd))]

lemma collapseWsAux_word {w : List Char}
    (hw : ∀ c ∈ w, isSpaceChar c = false) (m : List Char) :
    collapseWsAux false (w ++ m) = w ++ collapseWsAux false m := by
  induction w with
  | nil => rfl
  | cons c t ih =>
    have hc : isSpaceChar c = false := hw c (List.mem_cons_self c t)
    simp only [List.cons_append, collapseWsAux, hc, Bool.false_eq_true, if_false,
      List.append_eq]
    rw [ih (fun d hd => hw d (List.mem_cons_of_mem c hd))]

lemma collapseWsAux_run {run : List Char}
    (hrun : ∀ c ∈ run, isSpaceChar c) (m : List Char) :
    collapseWsAux true (run ++ m) = collapseWsAux true m := by
  induction run with
  | nil => rfl
  | cons c t ih =>
    have hc : isSpaceChar c := hrun c (List.mem_cons_self c t)
    simp only [List.cons_append, collapseWsAux, hc, if_true]
    exact ih (fun d hd => hrun d (List.mem_cons_of_mem c hd))

lemma collapseWsAux_true_head {c : Char} {m : List Char}
    (hc : isSpaceChar c = false) :
    collapseWsAux true (c :: m) = collapseWsAux false (c :: m) := by
  simp [collapseWsAux, hc]

lemma pySplitAux_ne_nil {acc : List Char} (hacc : acc ≠ []) :
    ∀ (l : List Char), pySplitAux acc l ≠ []
  | [] => by simp [pySplitAux, hacc]
  | c :: t => by
    by_cases hc : isSpaceChar c
    · simp [pySplitAux, hc, hacc]
    · simp only [pySplitAux, hc, Bool.false_eq_true, if_false]
      exact pySplitAux_ne_nil (by simp) t

lemma pySplit_eq_nil_iff {l : List Char} :
    pySplit l = [] ↔ ∀ c ∈ l, isSpaceChar c := by
  induction l with
  | nil => simp [pySplit, pySplitAux]
  | cons c t ih =>
    by_cases hc : isSpaceChar c
    · simp only [pySplit, pySplitAux, hc, if_true]
      simp only [pySplit] at ih
      rw [ih]
      constructor
      · intro h d hd
        rcases List.mem_cons.mp hd with h1 | h1
        · exact h1 ▸ hc
        · exact h d h1
      · intro h d hd
        exact h d (List.mem_cons_of_mem c hd)
    · simp only [pySplit, pySplitAux, hc, Bool.false_eq_true, if_false]
      constructor
      · intro h
        exact absurd h (pySplitAux_ne_nil (by simp) t)
      · intro h
        exact absurd (h c (List.mem_cons_self c t)) hc

lemma pySplitAux_skip_ws (l : List Char) :
    pySplitAux [] l = pySplitAux [] (l.dropWhile isSpaceChar) := by
  induction l with
  | nil => rfl
  | cons c t ih =>
    by_cases hc : isSpaceChar c
    · rw [List.dropWhile_cons_of_pos hc, ← ih]
      simp [pySplitAux, hc]
    · rw [List.dropWhile_cons_of_neg hc]

lemma pySplitAux_acc {acc : List Char} (hacc : acc ≠ []) :
    ∀ (m : List Char),
      pySplitAux acc m =
        (acc.reverse ++ m.takeWhile (fun d => !isSpaceChar d)) ::
          pySplitAux [] (m.dropWhile (fun d => !isSpaceChar d))
  | [] => by simp [pySplitAux, hacc]
  | c :: m' => by
    by_cases hc : isSpaceChar c
    · have hpc : (fun d => !isSpaceChar d) c = false := by simp [hc]
      rw [List.takeWhile_cons_of_neg (by simp [hpc]),
        List.dropWhile_cons_of_neg (by simp [hpc])]
      simp [pySplitAux, hc, hacc]
    · have hpc : (fun d => !isSpaceChar d) c = true := by simp [hc]
      have ht : List.takeWhile (fun d => !isSpaceChar d) (c :: m') =
          c :: List.takeWhile (fun d => !isSpaceChar d) m' :=
        List.takeWhile_cons_of_pos hpc
      have hd : List.dropWhile (fun d => !isSpaceChar d) (c :: m') =
          List.dropWhile (fun d => !isSpaceChar d) m' :=
        List.dropWhile_cons_of_pos hpc
      rw [ht, hd]
      simp only [pySplitAux, hc, Bool.false_eq_true, if_false]
      rw [pySplitAux_acc (by simp) m']
      simp

lemma joinUnd_cons (w : List Char) (L : List (List Char)) :
    joinUnd (w :: L) = w ++ (if L = [] then [] else '_' :: joinUnd L) := by
  cases L with
  | nil => simp [joinUnd]
  | cons u rest => simp [joinUnd]

/-- Key equivalence: `strip()` followed by collapsing whitespace runs to
single underscores is the same as joining the whitespace-separated words
with underscores. -/
theorem collapse_strip_eq_join (l : List Char) :
    collapseWs (pyStrip l) = joinUnd (pySplit l) := by
  rw [pyStrip_eq_stripRight]
  cases h : l.dropWhile isSpaceChar with
  | nil =>
    rw [show pySplit l = pySplitAux [] (l.dropWhile isSpaceChar) from
      pySplitAux_skip_ws l, h]
    simp [stripRight, collapseWs, collapseWsAux, pySplitAux, joinUnd]
  | cons c rest =>
    have hc : isSpaceChar c = false := dropWhile_head_false h
    have hsplit :
        pySplit l = (c :: rest.takeWhile (fun d => !isSpaceChar d)) ::
          pySplitAux [] (rest.dropWhile (fun d => !isSpaceChar d)) := by
      rw [show pySplit l = pySplitAux [] (l.dropWhile isSpaceChar) from
        pySplitAux_skip_ws l, h]
      simp only [pySplitAux, hc, Bool.false_eq_true, if_false]
      rw [pySplitAux_acc (by simp) rest]
      simp
    set w := rest.takeWhile (fun d => !isSpaceChar d) with hw_def
    set r := rest.dropWhile (fun d => !isSpaceChar d) with hr_def
    have hw_nonws : ∀ d ∈ c :: w, isSpaceChar d = false := by
      intro d hd
      rcases List.mem_cons.mp hd with h1 | h1
      · exact h1 ▸ hc
      · have := List.mem_takeWhile_imp h1
        simpa using this
    have hrest : rest = w ++ r := (List.takeWhile_append_dropWhile _ rest).symm
    have hlen_rest : rest.length + 1 ≤ l.length := by
      have hsub : (List.dropWhile isSpaceChar l).length ≤ l.length :=
        (List.dropWhile_sublist isSpaceChar).length_le
      rw [h] at hsub
      simpa using hsub
    rw [hsplit, joinUnd_cons]
    have hstrip : stripRight (c :: rest) = (c :: w) ++ stripRight r := by
      rw [hrest, show c :: (w ++ r) = (c :: w) ++ r from rfl, stripRight_append]
      by_cases h0 : stripRight r = []
      · rw [if_pos h0, stripRight_eq_self hw_nonws, h0, List.append_nil]
      · rw [if_neg h0]
    rw [hstrip]
    by_cases h0 : stripRight r = []
    · have hr_ws : ∀ d ∈ r, isSpaceChar d := stripRight_eq_nil_iff.mp h0
      have hps : pySplitAux [] r = [] := by
        have hiff : pySplit r = [] ↔ ∀ c ∈ r, isSpaceChar c := pySplit_eq_nil_iff
        simp only [pySplit] at hiff
        exact hiff.mpr hr_ws
      rw [hps, if_pos rfl, h0, List.append_nil]
      exact collapseWsAux_id hw_nonws
    · -- r begins with whitespace and contains a non-whitespace character
      have hr_ne : r ≠ [] := by
        intro hr0
        rw [hr0] at h0
        exact h0 rfl
      obtain ⟨d, r', hdr⟩ := List.exists_cons_of_ne_nil hr_ne
      have hd_ws : isSpaceChar d := by
        have hdr2 : List.dropWhile (fun x => !isSpaceChar x) rest = d :: r' := by
          rw [← hr_def]
          exact hdr
        have h2 := dropWhile_head_false hdr2
        simpa using h2
      set run := r.takeWhile isSpaceChar with hrun_def
      set tail := r.dropWhile isSpaceChar with htail_def
      have hr_split : r = run ++ tail := (List.takeWhile_append_dropWhile _ r).symm
      have hrun_ws : ∀ d ∈ run, isSpaceChar d :=
        fun d hd => List.mem_takeWhile_imp hd
      have htail_ne : tail ≠ [] := by
        intro ht0
        have : ∀ d ∈ r, isSpaceChar d := List.dropWhile_eq_nil_iff.mp ht0
        exact h0 (stripRight_eq_nil_iff.mpr this)
      obtain ⟨e, tail', het⟩ := List.exists_cons_of_ne_nil htail_ne
      have he : isSpaceChar e = false := dropWhile_head_false (het ▸ htail_def.symm)
      have hstrip_tail : stripRight tail = e :: stripRight tail' := by
        rw [het]
        exact stripRight_cons_of_neg he
      have hstrip_r : stripRight r = run ++ stripRight tail := by
        rw [hr_split, stripRight_append, if_neg]
        rw [hstrip_tail]
        simp
      have hrun_ne : run ≠ [] := by
        rw [hrun_def, hdr]
        simp [List.takeWhile_cons_of_pos hd_ws]
      obtain ⟨d0, run', hd0⟩ := List.exists_cons_of_ne_nil hrun_ne
      have hd0_ws : isSpaceChar d0 := hrun_ws d0 (hd0 ▸ List.mem_cons_self d0 run')
      have hrun'_ws : ∀ x ∈ run', isSpaceChar x :=
        fun x hx => hrun_ws x (hd0 ▸ List.mem_cons_of_mem d0 hx)
      -- left-hand side computation
      have hlhs : collapseWs ((c :: w) ++ stripRight r) =
          (c :: w) ++ '_' :: collapseWs (stripRight tail) := by
        rw [collapseWs, collapseWsAux_word hw_nonws, hstrip_r, hd0,
          show (d0 :: run') ++ stripRight tail = d0 :: (run' ++ stripRight tail)
            from rfl]
        simp only [collapseWsAux, hd0_ws, if_true]
        rw [collapseWsAux_run hrun'_ws, hstrip_tail,
          collapseWsAux_true_head he, ← hstrip_tail, collapseWs]
        simp
      -- recursive structure: tail is shorter than l
      have hlen_tail : tail.length < l.length := by
        have h1 : tail.length ≤ r.length :=
          (htail_def ▸ (List.dropWhile_sublist isSpaceChar).length_le)
        have h2 : r.length ≤ rest.length :=
          (hr_def ▸ (List.dropWhile_sublist (fun d => !isSpaceChar d)).length_le)
        omega
      have ih := collapse_strip_eq_join tail
      have htail_drop : tail.dropWhile isSpaceChar = tail := by
        rw [het]
        exact List.dropWhile_cons_of_neg (by simp [he])
      rw [pyStrip_eq_stripRight, htail_drop] at ih
      have hps_r : pySplitAux [] r = pySplit tail := by
        rw [show pySplitAux [] r = pySplit r from rfl, pySplit,
          pySplitAux_skip_ws r, ← htail_def, pySplit]
      have hps_ne : pySplit tail ≠ [] := by
        intro hp0
        have := pySplit_eq_nil_iff.mp hp0
        have := this e (het ▸ List.mem_cons_self e tail')
        rw [he] at this
        exact Bool.false_ne_true this
      rw [hlhs, hps_r, if_neg hps_ne, ih]
termination_by l.length
decreasing_by
  exact hlen_tail

/-- C1, counterexample: on the one-character input consisting of a single
space, the code strips the whitespace and falls back to `"new_chat"`,
whereas the claim's pipeline (remove disallowed characters, replace each
whitespace run with a single underscore, truncate, fall back only when
empty) yields `"_"`. -/
theorem sanitize_filename_claim_counterexample :
    sanitize_filename " ".data ≠ claimSanitize " ".data := by
  decide

/-- C1, amended: `sanitize_filename` removes every character that is not
alphanumeric, whitespace, hyphen, or underscore, strips leading and
trailing whitespace, replaces each remaining run of whitespace with a
single underscore (equivalently, joins the whitespace-separated words with
underscores), truncates to at most 50 characters, and falls back to
`"new_chat"` when the sanitized result is empty; in particular the output
is always non-empty and never exceeds 50 characters. -/
theorem sanitize_filename_spec (topic : List Char) :
    sanitize_filename topic = specSanitize topic ∧
      sanitize_filename topic ≠ [] ∧ (sanitize_filename topic).length ≤ 50 := by
  refine ⟨?_, ?_, ?_⟩
  · simp only [sanitize_filename, specSanitize]
    rw [collapse_strip_eq_join]
  · simp only [sanitize_filename]
    by_cases h : collapseWs (pyStrip (topic.filter allowedChar)) = []
    · rw [if_pos h]
      decide
    · rw [if_neg h]
      intro hx
      rcases List.take_eq_nil_iff.mp hx with h1 | h1
      · omega
      · exact h h1
  · simp only [sanitize_filename]
    by_cases h : collapseWs (pyStrip (topic.filter allowedChar)) = []
    · rw [if_pos h]
      decide
    · rw [if_neg h, List.length_take]
      exact min_le_left _ _

theorem sanitize_filename_spec_witness :
    sanitize_filename " He*llo  world ".data = specSanitize " He*llo  world ".data ∧
      sanitize_filename " He*llo  world ".data ≠ [] ∧
      (sanitize_filename " He*llo  world ".data).length ≤ 50 :=
  sanitize_filename_spec " He*llo  world ".data

lemma charsToNat_append_digit (xs : List Char) (c : Char) :
    charsToNat (xs ++ [c]) = charsToNat xs * 10 + (c.toNat - 48) := by
  simp [charsToNat, List.foldl_append]

lemma digitChar_toNat : ∀ d, d < 10 → (digitChar d).toNat - 48 = d := by
  decide

lemma charsToNat_natToCharsAux :
    ∀ (fuel n : Nat), n ≤ fuel → charsToNat (natToCharsAux fuel n) = n
  | 0, n, h => by
    have hn : n = 0 := Nat.le_zero.mp h
    subst hn
    rfl
  | fuel + 1, n, h => by
    by_cases hn : n = 0
    · subst hn
      rfl
    · have hlt : n / 10 < n := Nat.div_lt_self (Nat.pos_of_ne_zero hn) (by omega)
      have ih := charsToNat_natToCharsAux fuel (n / 10) (by omega)
      rw [show natToCharsAux (fuel + 1) n =
          natToCharsAux fuel (n / 10) ++ [digitChar (n % 10)] from by
        rw [natToCharsAux, if_neg hn]]
      rw [charsToNat_append_digit, ih, digitChar_toNat _ (Nat.mod_lt n (by omega))]
      have := Nat.div_add_mod n 10
      omega

lemma charsToNat_natToChars (n : Nat) : charsToNat (natToChars n) = n := by
  by_cases hn : n = 0
  · subst hn
    rfl
  · rw [natToChars, if_neg hn]
    exact charsToNat_natToCharsAux (n + 1) n (by omega)

lemma natToChars_injective : Function.Injective natToChars := by
  intro m n h
  have h2 := congrArg charsToNat h
  rwa [charsToNat_natToChars, charsToNat_natToChars] at h2

lemma candidate_inj (s : List Char) : Function.Injective (candidate s) := by
  intro i j h
  unfold candidate at h
  by_cases hi : i = 0 <;> by_cases hj : j = 0
  · omega
  · rw [if_pos hi, if_neg hj] at h
    have h2 := List.append_cancel_left h
    rw [show jsonExt = ['.', 'j', 's', 'o', 'n'] from rfl] at h2
    cases h2
  · rw [if_neg hi, if_pos hj] at h
    have h2 := List.append_cancel_left h
    rw [show jsonExt = ['.', 'j', 's', 'o', 'n'] from rfl] at h2
    cases h2
  · rw [if_neg hi, if_neg hj] at h
    have h2 := List.append_cancel_left h
    have h4 : natToChars i ++ jsonExt = natToChars j ++ jsonExt := by
      injection h2
    exact natToChars_injective (List.append_cancel_right h4)

lemma exists_candidate_not_mem (existing : List (List Char)) (s : List Char) :
    ∃ k, k ≤ existing.length ∧ candidate s k ∉ existing := by
  by_contra hcon
  push_neg at hcon
  have hsub : (Finset.range (existing.length + 1)).image (candidate s) ⊆
      existing.toFinset := by
    intro x hx
    rcases Finset.mem_image.mp hx with ⟨k, hk, rfl⟩
    exact List.mem_toFinset.mpr
      (hcon k (Nat.lt_succ_iff.mp (Finset.mem_range.mp hk)))
  have hcard := Finset.card_le_card hsub
  rw [Finset.card_image_of_injective _ (candidate_inj s), Finset.card_range] at hcard
  have hlen : existing.toFinset.card ≤ existing.length :=
    List.toFinset_card_le existing
  omega

lemma uniqueIdxAux_spec (existing : List (List Char)) (s : List Char) :
    ∀ (fuel i k : Nat), k < fuel → candidate s (i + k) ∉ existing →
      candidate s (uniqueIdxAux existing s fuel i) ∉ existing ∧
        uniqueIdxAux existing s fuel i ≤ i + k
  | 0, _, k, hk, _ => absurd hk (Nat.not_lt_zero k)
  | fuel + 1, i, k, hk, hfree => by
    by_cases hmem : candidate s i ∈ existing
    · have hk0 : k ≠ 0 := by
        intro h0
        subst h0
        exact hfree hmem
      have ih := uniqueIdxAux_spec existing s fuel (i + 1) (k - 1) (by omega)
        (by rw [show i + 1 + (k - 1) = i + k from by omega]; exact hfree)
      simp only [uniqueIdxAux, if_pos hmem]
      refine ⟨ih.1, ?_⟩
      have := ih.2
      omega
    · simp only [uniqueIdxAux, if_neg hmem]
      exact ⟨hmem, Nat.le_add_right i k⟩

lemma uniqueIdx_spec (existing : List (List Char)) (s : List Char) :
    candidate s (uniqueIdx existing s) ∉ existing ∧
      uniqueIdx existing s ≤ existing.length := by
  obtain ⟨k, hk, hfree⟩ := exists_candidate_not_mem existing s
  have h := uniqueIdxAux_spec existing s (existing.length + 1) 0 k (by omega)
    (by simpa using hfree)
  unfold uniqueIdx
  refine ⟨h.1, ?_⟩
  have := h.2
  omega

/-- C2: the uniqueness loop chooses a chat id that names no existing file
in the sessions directory, so saving the new chat under that id never
overwrites an existing session file. -/
theorem new_chat_id_not_mem (existing : List (List Char)) (s : List Char) :
    new_chat_id existing s ∉ existing ∧
      ∀ f ∈ existing, ∀ (h : List Message) (fs : FS),
        save_chat_history (new_chat_id existing s) h fs f = fs f := by
  have h1 := (uniqueIdx_spec existing s).1
  refine ⟨h1, ?_⟩
  intro f hf h fs
  simp only [save_chat_history]
  rw [if_neg ?_]
  intro heq
  rw [heq] at hf
  exact h1 hf

theorem new_chat_id_not_mem_witness :
    "a.json".data ∈ ["a.json".data] ∧
      new_chat_id ["a.json".data] "a".data ∉ ["a.json".data] ∧
      save_chat_history (new_chat_id ["a.json".data] "a".data) []
          (fun _ => none) "a.json".data = (fun _ => none : FS) "a.json".data :=
  ⟨List.mem_singleton.mpr rfl,
   (new_chat_id_not_mem ["a.json".data] "a".data).1,
   (new_chat_id_not_mem ["a.json".data] "a".data).2 "a.json".data
     (List.mem_singleton.mpr rfl) [] (fun _ => none)⟩

/-- C6: the uniqueness loop terminates after at most one more candidate
than the number of existing files: the suffix index it stops at is at most
`existing.length`, the candidate there names no existing file, and each
iteration on an existing name retries with the suffix increased by one. -/
theorem uniqueIdx_le_length (existing : List (List Char)) (s : List Char) :
    uniqueIdx existing s ≤ existing.length ∧
      candidate s (uniqueIdx existing s) ∉ existing ∧
      ∀ (fuel i : Nat), uniqueIdxAux existing s (fuel + 1) i =
        if candidate s i ∈ existing then uniqueIdxAux existing s fuel (i + 1) else i :=
  ⟨(uniqueIdx_spec existing s).2, (uniqueIdx_spec existing s).1,
   fun _ _ => rfl⟩

theorem uniqueIdx_le_length_witness :
    uniqueIdx ["a.json".data, "a_1.json".data] "a".data ≤
        ["a.json".data, "a_1.json".data].length ∧
      candidate "a".data (uniqueIdx ["a.json".data, "a_1.json".data] "a".data) ∉
        ["a.json".data, "a_1.json".data] ∧
      ∀ (fuel i : Nat),
        uniqueIdxAux ["a.json".data, "a_1.json".data] "a".data (fuel + 1) i =
          if candidate "a".data i ∈ ["a.json".data, "a_1.json".data] then
            uniqueIdxAux ["a.json".data, "a_1.json".data] "a".data fuel (i + 1)
          else i :=
  uniqueIdx_le_length ["a.json".data, "a_1.json".data] "a".data

lemma strsOfJson_map (l : List String) : strsOfJson (l.map Json.str) = some l := by
  induction l with
  | nil => rfl
  | cons s t ih => simp [strsOfJson, ih]

lemma jsonToMsg_msgToJson (m : Message) : jsonToMsg (msgToJson m) = some m := by
  cases m with
  | mk r c imgs =>
    cases imgs with
    | none => rfl
    | some imgs =>
      simp [jsonToMsg, msgToJson, lookupField, List.find?, strsOfJson_map imgs]

lemma msgsOfJsonList_map (msgs : List Message) :
    msgsOfJsonList (msgs.map msgToJson) = some msgs := by
  induction msgs with
  | nil => rfl
  | cons m t ih => simp [msgsOfJsonList, jsonToMsg_msgToJson m, ih]

lemma jsonToMsgs_msgsToJson (msgs : List Message) :
    jsonToMsgs (msgsToJson msgs) = some msgs := by
  simp [jsonToMsgs, msgsToJson, msgsOfJsonList_map]

/-- C3: writing a chat history and then loading the same chat id yields
the written history: the stored JSON value is returned verbatim by
`load_chat_history`, and decoding it recovers exactly the message sequence
that was written. -/
theorem save_load_roundtrip (fs : FS) (chat_id : List Char)
    (history : List Message) :
    load_chat_history chat_id (save_chat_history chat_id history fs) =
        msgsToJson history ∧
      jsonToMsgs (msgsToJson history) = some history := by
  constructor
  · simp [load_chat_history, save_chat_history]
  · exact jsonToMsgs_msgsToJson history

theorem save_load_roundtrip_witness :
    load_chat_history "c.json".data
        (save_chat_history "c.json".data
          [{ role := "user", content := "hi", images := none }] (fun _ => none)) =
        msgsToJson [{ role := "user", content := "hi", images := none }] ∧
      jsonToMsgs (msgsToJson [{ role := "user", content := "hi", images := none }]) =
        some [{ role := "user", content := "hi", images := none }] :=
  save_load_roundtrip (fun _ => none) "c.json".data
    [{ role := "user", content := "hi", images := none }]

/-- C9: loading a chat id whose file does not exist in the sessions
directory returns the empty list (the empty JSON array), not an error. -/
theorem load_chat_history_missing (fs : FS) (chat_id : List Char)
    (h : fs chat_id = none) :
    load_chat_history chat_id fs = Json.arr [] := by
  simp [load_chat_history, h]

theorem load_chat_history_missing_witness :
    (fun _ => none : FS) "x.json".data = none ∧
      load_chat_history "x.json".data (fun _ => none) = Json.arr [] :=
  ⟨rfl, load_chat_history_missing (fun _ => none) "x.json".data rfl⟩

/-- C4: when the model invocation inside `generate_chat_topic` fails, the
fixed fallback topic `"Chat"` is returned; when it succeeds, the model's
reply content is returned. (By inspection of `chat.py`, the
`try`/`except` block in `generate_chat_topic` is the only error-handling
branch in the program; every other modelled operation is total.) -/
theorem generate_chat_topic_fallback
    (chat : List Message → Except String String) (messages : List Message) :
    (∀ e, chat (messages ++ [topicMessage]) = Except.error e →
        generate_chat_topic chat messages = "Chat") ∧
      (∀ c, chat (messages ++ [topicMessage]) = Except.ok c →
        generate_chat_topic chat messages = c) := by
  constructor
  · intro e he
    simp [generate_chat_topic, he]
  · intro c hc
    simp [generate_chat_topic, hc]

theorem generate_chat_topic_fallback_witness :
    ((fun _ => Except.error "boom" : List Message → Except String String)
          ([] ++ [topicMessage]) = Except.error "boom" ∧
        generate_chat_topic (fun _ => Except.error "boom") [] = "Chat") ∧
      ((fun _ => Except.ok "Topic" : List Message → Except String String)
          ([] ++ [topicMessage]) = Except.ok "Topic" ∧
        generate_chat_topic (fun _ => Except.ok "Topic") [] = "Topic") :=
  ⟨⟨rfl, (generate_chat_topic_fallback (fun _ => Except.error "boom") []).1
      "boom" rfl⟩,
   ⟨rfl, (generate_chat_topic_fallback (fun _ => Except.ok "Topic") []).2
      "Topic" rfl⟩⟩

/-- C7: `get_chat_sessions` returns exactly the `.json` entries of the
directory listing (as a permutation of the filtered listing), ordered by
modification time with the most recently modified first. -/
theorem get_chat_sessions_spec (listing : List (List Char))
    (mtime : List Char → Nat) :
    (get_chat_sessions listing mtime).Perm (listing.filter endsWithJson) ∧
      (get_chat_sessions listing mtime).Pairwise
        (fun a b => mtime b ≤ mtime a) := by
  constructor
  · exact List.mergeSort_perm _ _
  · have h : ((listing.filter endsWithJson).mergeSort
        (fun a b => decide (mtime b ≤ mtime a))).Pairwise
        (fun a b => decide (mtime b ≤ mtime a) = true) :=
      List.sorted_mergeSort
        (fun a b c h1 h2 => by
          simp only [decide_eq_true_eq] at h1 h2 ⊢
          omega)
        (fun a b => by
          simp only [Bool.or_eq_true, decide_eq_true_eq]
          omega)
        (listing.filter endsWithJson)
    exact h.imp (fun hab => by simpa using hab)

theorem get_chat_sessions_spec_witness :
    (get_chat_sessions ["b.json".data, "a.txt".data, "a.json".data]
        (fun f => f.length)).Perm
        (["b.json".data, "a.txt".data, "a.json".data].filter endsWithJson) ∧
      (get_chat_sessions ["b.json".data, "a.txt".data, "a.json".data]
        (fun f => f.length)).Pairwise (fun a b => b.length ≤ a.length) :=
  get_chat_sessions_spec ["b.json".data, "a.txt".data, "a.json".data]
    (fun f => f.length)

/-- C5: the active chat identifier is `none` on a fresh session and after
the New Chat action; completing an exchange via `processPrompt` always
leaves an identifier assigned; and an exchange on a session that already
has an identifier keeps that identifier unchanged (saving does not touch
it). -/
theorem active_chat_id_lifecycle (existing : List (List Char))
    (chat : List Message → Except String String) (reply prompt : String)
    (st : AppState) (fs : FS) :
    initialState.active_chat_id = none ∧
      (newChatAction st).active_chat_id = none ∧
      ((processPrompt existing chat reply prompt st fs).1.active_chat_id).isSome
        = true ∧
      (∀ c, st.active_chat_id = some c →
        (processPrompt existing chat reply prompt st fs).1.active_chat_id
          = some c) := by
  refine ⟨rfl, rfl, rfl, ?_⟩
  intro c hcid
  simp [processPrompt, hcid]

theorem active_chat_id_lifecycle_witness :
    ({ messages := [], active_chat_id := some ['a'], staged_image := none,
        uploader_key := 0 } : AppState).active_chat_id = some ['a'] ∧
      (processPrompt [] (fun _ => Except.ok "Topic") "r" "p"
          { messages := [], active_chat_id := some ['a'], staged_image := none,
            uploader_key := 0 } (fun _ => none)).1.active_chat_id = some ['a'] :=
  ⟨rfl,
   (active_chat_id_lifecycle [] (fun _ => Except.ok "Topic") "r" "p"
       { messages := [], active_chat_id := some ['a'], staged_image := none,
         uploader_key := 0 } (fun _ => none)).2.2.2 ['a'] rfl⟩

/-- C8: `generate_chat_topic` consults the model only at the current
history with exactly the one topic instruction appended; the interaction
step leaves the session history equal to the previous history plus just
the user and assistant messages; what is persisted under the chosen id is
exactly that history; and the topic instruction never appears in it
(provided it was not already present and the user did not type the
instruction text verbatim). -/
theorem topic_generation_frame (existing : List (List Char))
    (chat : List Message → Except String String) (reply prompt : String)
    (st : AppState) (fs : FS) :
    (∀ f g : List Message → Except String String, ∀ msgs : List Message,
        f (msgs ++ [topicMessage]) = g (msgs ++ [topicMessage]) →
        generate_chat_topic f msgs = generate_chat_topic g msgs) ∧
      (processPrompt existing chat reply prompt st fs).1.messages =
        st.messages ++
          [mkUserMessage prompt st.staged_image, assistantMessage reply] ∧
      (∀ c,
        (processPrompt existing chat reply prompt st fs).1.active_chat_id
            = some c →
        (processPrompt existing chat reply prompt st fs).2 c =
          some (msgsToJson (st.messages ++
            [mkUserMessage prompt st.staged_image, assistantMessage reply]))) ∧
      (topicMessage ∉ st.messages → prompt ≠ topicPromptText →
        topicMessage ∉ (processPrompt existing chat reply prompt st fs).1.messages) := by
  refine ⟨?_, ?_, ?_, ?_⟩
  · intro f g msgs hfg
    simp only [generate_chat_topic, hfg]
  · simp [processPrompt]
  · intro c hc
    simp only [processPrompt] at hc ⊢
    simp only [Option.some.injEq] at hc
    rw [save_chat_history, if_pos hc.symm]
    simp
  · intro h1 h2
    simp only [processPrompt]
    intro hmem
    rw [List.append_assoc] at hmem
    rcases List.mem_append.mp hmem with h3 | h3
    · exact h1 h3
    · rcases List.mem_cons.mp h3 with h4 | h4
      · cases hst : st.staged_image with
        | none =>
          rw [hst] at h4
          simp only [mkUserMessage, topicMessage] at h4
          have := congrArg Message.content h4
          exact h2 this.symm
        | some b =>
          rw [hst] at h4
          simp only [mkUserMessage, topicMessage] at h4
          have := congrArg Message.images h4
          simp at this
      · rcases List.mem_cons.mp h4 with h5 | h5
        · simp only [assistantMessage, topicMessage] at h5
          have := congrArg Message.role h5
          simp at this
        · simp at h5

theorem topic_generation_frame_witness :
    ((processPrompt [] (fun _ => Except.ok "Topic") "r" "p" initialState
          (fun _ => none)).1.active_chat_id = some "Topic.json".data ∧
        (processPrompt [] (fun _ => Except.ok "Topic") "r" "p" initialState
            (fun _ => none)).2 "Topic.json".data =
          some (msgsToJson ([] ++
            [mkUserMessage "p" none, assistantMessage "r"]))) ∧
      (topicMessage ∉ ([] : List Message) ∧ ("p" : String) ≠ topicPromptText ∧
        topicMessage ∉ (processPrompt [] (fun _ => Except.ok "Topic") "r" "p"
          initialState (fun _ => none)).1.messages) := by
  have h := topic_generation_frame [] (fun _ => Except.ok "Topic") "r" "p"
    initialState (fun _ => none)
  refine ⟨⟨by decide, h.2.2.1 "Topic.json".data (by decide)⟩,
    ⟨by decide, by decide, h.2.2.2 (by decide) (by decide)⟩⟩

/-- C10: a staged image is attached to at most one user message: after any
interaction the staged image is `none`, and when an image was staged it is
attached (as its base64 payload) to the single user message of that
exchange and the uploader key is rotated so the upload widget is
cleared. -/
theorem staged_image_once (existing : List (List Char))
    (chat : List Message → Except String String) (reply prompt : String)
    (st : AppState) (fs : FS) :
    (processPrompt existing chat reply prompt st fs).1.staged_image = none ∧
      (∀ b, st.staged_image = some b →
        (processPrompt existing chat reply prompt st fs).1.messages =
          st.messages ++
            [{ role := "user", content := prompt, images := some [b] },
              assistantMessage reply] ∧
        (processPrompt existing chat reply prompt st fs).1.uploader_key =
          st.uploader_key + 1) := by
  constructor
  · cases h : st.staged_image <;> simp [processPrompt, h]
  · intro b hb
    constructor
    · simp [processPrompt, hb, mkUserMessage]
    · simp [processPrompt, hb]

theorem staged_image_once_witness :
    ({ messages := [], active_chat_id := some ['a'], staged_image := some "b64",
        uploader_key := 3 } : AppState).staged_image = some "b64" ∧
      (processPrompt [] (fun _ => Except.ok "Topic") "r" "p"
          { messages := [], active_chat_id := some ['a'],
            staged_image := some "b64", uploader_key := 3 }
          (fun _ => none)).1.messages =
        [] ++ [{ role := "user", content := "p", images := some ["b64"] },
          assistantMessage "r"] ∧
      (processPrompt [] (fun _ => Except.ok "Topic") "r" "p"
          { messages := [], active_chat_id := some ['a'],
            staged_image := some "b64", uploader_key := 3 }
          (fun _ => none)).1.uploader_key = 3 + 1 := by
  have h := (staged_image_once [] (fun _ => Except.ok "Topic") "r" "p"
    { messages := [], active_chat_id := some ['a'], staged_image := some "b64",
      uploader_key := 3 } (fun _ => none)).2 "b64" rfl
  exact ⟨rfl, h.1, h.2⟩

end Wandee
